import Mathlib

/-!
Verification of the column-mapping and value-coercion core of the
`go-structtable` repository against its natural-language specification.

The Go sources are shallowly embedded: pure functions become Lean functions,
the stateful text renderer becomes explicit state passing, Go `int` values
become `Int` (column indices use the sentinel `-1` as in the source),
fallible operations return `Except`, and a `panic` outcome of the read
driver is made explicit in a result type.
-/

/-! ## SpacePascalCase (src/columnmapper.go) -/

/-- Models `unicode.IsUpper` as used by `SpacePascalCase`.
For the ASCII field names appearing in the repository and its tests this
agrees with the Go function (`Char.isUpper` decides `A`-`Z`). -/
def goIsUpper (c : Char) : Bool := c.isUpper

/-- Models `unicode.IsSpace`: the Unicode white-space runes recognized by Go
(space, tab, newline, vertical tab, form feed, carriage return, NEL, NBSP). -/
def goIsSpace (c : Char) : Bool :=
  c = ' ' || c = '\t' || c = '\n' || c = Char.ofNat 11 || c = Char.ofNat 12 ||
  c = '\r' || c = Char.ofNat 0x85 || c = Char.ofNat 0xA0

/-- Models `strings.TrimSpace`: removes leading and trailing white space. -/
def goTrimSpace (l : List Char) : List Char :=
  ((l.dropWhile goIsSpace).reverse.dropWhile goIsSpace).reverse

/-- The rune loop of `SpacePascalCase`: walks the runes of the name carrying
the `lastWasUpper` and `lastWasSpace` flags of the source, replacing `_` with
a single space and inserting a space before an upper-case rune that follows a
non-upper, non-space rune. -/
def spacePascalCaseAux : List Char → Bool → Bool → List Char
  | [], _, _ => []
  | r :: rest, lastWasUpper, lastWasSpace =>
    if r = '_' then
      (if lastWasSpace then [] else [' ']) ++ spacePascalCaseAux rest false true
    else
      (if goIsUpper r && !lastWasUpper && !lastWasSpace then [' '] else []) ++
        r :: spacePascalCaseAux rest (goIsUpper r) (goIsSpace r)

/-- Models `SpacePascalCase` from src/columnmapper.go: runs the rune loop with
both flags initially `true` and trims surrounding white space from the built
string, exactly as the source does. -/
def SpacePascalCase (name : String) : String :=
  String.mk (goTrimSpace (spacePascalCaseAux name.data true true))

/-- C7: the untagged-field-title transform maps the five literal inputs of the
spec to the listed outputs: `"HelloWorld"` to `"Hello World"`, `"_Hello_World"`
to `"Hello World"`, `"helloWorld_"` to `"hello World"`,
`"ThisHasMore_Spaces__ForSure"` to `"This Has More Spaces For Sure"`, and the
empty string to the empty string. -/
theorem spacePascalCase_examples :
    SpacePascalCase "HelloWorld" = "Hello World" ∧
    SpacePascalCase "_Hello_World" = "Hello World" ∧
    SpacePascalCase "helloWorld_" = "hello World" ∧
    SpacePascalCase "ThisHasMore_Spaces__ForSure" = "This Has More Spaces For Sure" ∧
    SpacePascalCase "" = "" := by
  refine ⟨?_, ?_, ?_, ?_, ?_⟩ <;> decide

/-! ## Struct field introspection (src/columnmapper.go)

A Go struct type is embedded as a list of fields. A field is either a plain
(non-anonymous) field carrying its name and struct tag, or an anonymous
(embedded) field carrying the field list of its struct type. Struct tags are
represented as association lists from tag key to tag value, modelling
`reflect.StructTag.Lookup`. The initial pointer dereference of
`StructFieldTypes`/`StructFieldValues` is the identity in this representation
(a `*T` struct pointer is represented by the field list of `T`). -/

/-- A flattened struct field descriptor: name plus struct tag entries. -/
structure FieldT where
  name : String
  tags : List (String × String)
  deriving DecidableEq, Repr

/-- A field of a Go struct type: plain, or anonymous (embedded) with the
fields of the embedded struct type spliced in. -/
inductive SField where
  | plain (f : FieldT)
  | anon (name : String) (sub : List SField)

/-- Models `go/token.IsExported`: the name starts with an upper-case letter
(`unicode.IsUpper` of the first rune; ASCII identifiers as in the claims). -/
def isExported (name : String) : Bool :=
  match name.data with
  | [] => false
  | c :: _ => c.isUpper

/-- Models `StructFieldTypes`: exported fields of a struct type in declaration
order, with the fields of anonymously embedded structs inlined in place
(anonymous fields are recursed into regardless of their own name, exactly as
in the source, which tests `field.Anonymous` before `token.IsExported`). -/
def structFieldTypes : List SField → List FieldT
  | [] => []
  | .anon _ sub :: rest => structFieldTypes sub ++ structFieldTypes rest
  | .plain f :: rest => (if isExported f.name then [f] else []) ++ structFieldTypes rest

/-- A field of a concrete struct instance: like `SField` but plain fields
additionally carry an opaque value handle (the `reflect.Value`). -/
inductive SFieldVal where
  | plain (f : FieldT) (value : Nat)
  | anon (name : String) (sub : List SFieldVal)

/-- The struct type of a struct instance (`reflect.Value.Type`). -/
def typeOfVal : List SFieldVal → List SField
  | [] => []
  | .plain f _ :: rest => .plain f :: typeOfVal rest
  | .anon n sub :: rest => .anon n (typeOfVal sub) :: typeOfVal rest

/-- Models `StructFieldValues`: the value handles of exported struct fields in
declaration order, with the values of anonymously embedded structs inlined. -/
def structFieldValues : List SFieldVal → List Nat
  | [] => []
  | .anon _ sub :: rest => structFieldValues sub ++ structFieldValues rest
  | .plain f v :: rest => (if isExported f.name then [v] else []) ++ structFieldValues rest

/-- The same traversal as `structFieldTypes`/`structFieldValues` but keeping
each flattened field descriptor paired with its value handle; used to state
that the two source functions stay index-aligned. -/
def structFieldPairs : List SFieldVal → List (FieldT × Nat)
  | [] => []
  | .anon _ sub :: rest => structFieldPairs sub ++ structFieldPairs rest
  | .plain f v :: rest => (if isExported f.name then [(f, v)] else []) ++ structFieldPairs rest

theorem structFieldTypes_append (xs ys : List SField) :
    structFieldTypes (xs ++ ys) = structFieldTypes xs ++ structFieldTypes ys := by
  induction xs with
  | nil => simp [structFieldTypes]
  | cons x rest ih =>
    cases x with
    | plain f => simp [structFieldTypes, ih]
    | anon n sub => simp [structFieldTypes, ih]

theorem structFieldPairs_fst (vs : List SFieldVal) :
    structFieldTypes (typeOfVal vs) = (structFieldPairs vs).map Prod.fst := by
  induction vs using structFieldPairs.induct with
  | case1 => simp [structFieldTypes, typeOfVal, structFieldPairs]
  | case2 n sub rest ihsub ihrest =>
    simp [structFieldTypes, typeOfVal, structFieldPairs, ihsub, ihrest]
  | case3 f v rest ihrest =>
    by_cases h : isExported f.name <;>
      simp [structFieldTypes, typeOfVal, structFieldPairs, h, ihrest]

theorem structFieldPairs_snd (vs : List SFieldVal) :
    structFieldValues vs = (structFieldPairs vs).map Prod.snd := by
  induction vs using structFieldPairs.induct with
  | case1 => simp [structFieldValues, structFieldPairs]
  | case2 n sub rest ihsub ihrest =>
    simp [structFieldValues, structFieldPairs, ihsub, ihrest]
  | case3 f v rest ihrest =>
    by_cases h : isExported f.name <;>
      simp [structFieldValues, structFieldPairs, h, ihrest]

/-- C9: for every struct instance, `StructFieldValues` returns exactly as many
value handles as `StructFieldTypes` returns field descriptors for the
instance's type, in the same traversal order: both are the two projections of
one paired traversal, so the value at index i is the value of the field
described at index i. -/
theorem structFieldValues_aligned (vs : List SFieldVal) :
    structFieldTypes (typeOfVal vs) = (structFieldPairs vs).map Prod.fst ∧
    structFieldValues vs = (structFieldPairs vs).map Prod.snd ∧
    (structFieldValues vs).length = (structFieldTypes (typeOfVal vs)).length := by
  refine ⟨structFieldPairs_fst vs, structFieldPairs_snd vs, ?_⟩
  rw [structFieldPairs_fst vs, structFieldPairs_snd vs]
  simp

theorem structFieldTypes_all_exported (fs : List SField) :
    ∀ g ∈ structFieldTypes fs, isExported g.name = true := by
  induction fs using structFieldTypes.induct with
  | case1 => simp [structFieldTypes]
  | case2 n sub rest ihsub ihrest =>
    intro g hg
    rw [structFieldTypes] at hg
    rcases List.mem_append.mp hg with h | h
    · exact ihsub g h
    · exact ihrest g h
  | case3 f rest ihrest =>
    intro g hg
    rw [structFieldTypes] at hg
    rcases List.mem_append.mp hg with h | h
    · by_cases he : isExported f.name
      · simp [he] at h; simpa [h] using he
      · simp [he] at h
    · exact ihrest g h

/-- C8 (amended): the flattened field list splices the fields of an embedded
(anonymous) sub-struct in place at the embedding field's position, depth-first
in declaration order, without the embedded field itself appearing — regardless
of whether the embedded field's own name is exported; a plain (non-embedded)
field is kept exactly when its name is exported, so every descriptor in the
output is exported. -/
theorem structFieldTypes_flattening :
    (∀ (pre : List SField) (nm : String) (sub post : List SField),
      structFieldTypes (pre ++ .anon nm sub :: post) =
        structFieldTypes pre ++ structFieldTypes sub ++ structFieldTypes post) ∧
    (∀ (pre : List SField) (f : FieldT) (post : List SField),
      structFieldTypes (pre ++ .plain f :: post) =
        structFieldTypes pre ++ (if isExported f.name then [f] else []) ++
          structFieldTypes post) ∧
    (∀ (fs : List SField), ∀ g ∈ structFieldTypes fs, isExported g.name = true) := by
  refine ⟨?_, ?_, structFieldTypes_all_exported⟩
  · intro pre nm sub post
    rw [structFieldTypes_append, structFieldTypes, List.append_assoc]
  · intro pre f post
    rw [structFieldTypes_append, structFieldTypes, List.append_assoc]

/-- C8 witness: the flattening equations and the exported-only property of
`structFieldTypes_flattening`, evaluated at a concrete struct type with one
embedded sub-struct and one unexported plain field. -/
theorem structFieldTypes_flattening_witness :
    structFieldTypes [.anon "Embedded" [.plain ⟨"A", []⟩], .plain ⟨"b", []⟩,
        .plain ⟨"C", []⟩] = [⟨"A", []⟩, ⟨"C", []⟩] ∧
    isExported (FieldT.name ⟨"A", []⟩) = true := by
  have hA : isExported "A" = true := by decide
  have hb : isExported "b" = false := by decide
  have hC : isExported "C" = true := by decide
  constructor
  · have h := structFieldTypes_flattening.1 [] "Embedded" [.plain ⟨"A", []⟩]
      [.plain ⟨"b", []⟩, .plain ⟨"C", []⟩]
    rw [List.nil_append] at h
    rw [h]; simp [structFieldTypes, hA, hb, hC]
  · exact structFieldTypes_flattening.2.2 [.plain ⟨"A", []⟩] ⟨"A", []⟩
      (by simp [structFieldTypes, hA])

/-- C8 counterexample: an anonymous (embedded) struct field whose own name
`"s"` is not exported is not dropped entirely — its exported sub-fields are
still spliced in, so the claim's clause "drops every non-exported field
entirely, at any nesting depth" fails for unexported embedded fields. -/
theorem structFieldTypes_unexported_embedded_counterexample :
    isExported "s" = false ∧
    structFieldTypes [.anon "s" [.plain ⟨"X", []⟩]] = [⟨"X", []⟩] ∧
    structFieldTypes [.anon "s" [.plain ⟨"X", []⟩]] ≠ [] := by
  have hX : isExported "X" = true := by decide
  refine ⟨by decide, ?_, ?_⟩ <;> simp [structFieldTypes, hX]

/-! ## ReflectColumnTitles.ColumnTitlesAndRowReflector (src/columnmapper.go)

The configuration struct keeps the source's field names. `MapIndices` is a
`map[int]int` in Go, embedded as an optional association list (so the source's
`n.MapIndices != nil` test is preserved); Go map keys are unique, and lookup
returns the first matching entry. Column indices are `Int` with the source's
`-1` sentinel for "no column". -/

/-- Models the `ReflectColumnTitles` configuration struct. A `none`
`UntaggedFieldTitle` models the nil function field. -/
structure ReflectColumnTitles where
  Tag : String
  IgnoreTitle : String
  UntaggedFieldTitle : Option (String → String)
  MapIndices : Option (List (Int × Int))

/-- Association-list lookup, modelling Go map indexing with `ok` result. -/
def lookupMap : List (Int × Int) → Int → Option Int
  | [], _ => none
  | (k, v) :: rest, i => if k = i then some v else lookupMap rest i

/-- Models `reflect.StructTag.Lookup` on the embedded tag representation. -/
def tagLookup : List (String × String) → String → Option String
  | [], _ => none
  | (k, v) :: rest, key => if k = key then some v else tagLookup rest key

/-- Models `ReflectColumnTitles.titleFromStructField`: use the tag value named
by `Tag` truncated at the first comma when present and non-empty, otherwise
the (possibly transformed) field name. -/
def titleFromStructField (cfg : ReflectColumnTitles) (f : FieldT) : String :=
  let untagged :=
    match cfg.UntaggedFieldTitle with
    | none => f.name
    | some u => u f.name
  match tagLookup f.tags cfg.Tag with
  | some tag =>
    let tag := String.mk (tag.data.takeWhile (fun c => c ≠ ','))
    if tag ≠ "" then tag else untagged
  | none => untagged

/-- Models the `getNextFreeColumnIndex` closure: the smallest index in
`[0, nFields)` not yet used. The source panics when every index is used; that
branch is modelled by the out-of-range result `nFields`, and it is unreachable
from `columnTitlesAndRowReflector` (at every call strictly fewer than
`nFields` indices are in use, see `getNextFreeColumnIndex_spec`). -/
def getNextFreeColumnIndex (nFields : Nat) (used : List Int) : Int :=
  match (List.range nFields).find? (fun i => !used.contains (Int.ofNat i)) with
  | some i => Int.ofNat i
  | none => Int.ofNat nFields

/-- The loop state of `ColumnTitlesAndRowReflector`: the `indices` slice built
so far, the keys of the `columnIndexUsed` set in insertion order, and the
`titles` slice built so far. -/
structure AState where
  indices : List Int
  used : List Int
  titles : List String
  deriving DecidableEq, Repr

/-- The `index` chosen for field number `i` by one iteration of the field
loop: the next free column index by default, overridden by an explicitly
mapped index when `MapIndices` is non-nil, has an entry for `i`, and the
requested index is not already used. -/
def chosenIndex (cfg : ReflectColumnTitles) (nFields : Nat) (s : AState)
    (i : Nat) : Int :=
  match cfg.MapIndices with
  | none => getNextFreeColumnIndex nFields s.used
  | some m =>
    match lookupMap m (Int.ofNat i) with
    | some mapped =>
      if s.used.contains mapped then getNextFreeColumnIndex nFields s.used
      else mapped
    | none => getNextFreeColumnIndex nFields s.used

/-- One iteration of the field loop of `ColumnTitlesAndRowReflector` for field
number `i` with descriptor `f`: ignore the field when its title equals
`IgnoreTitle`; otherwise choose a column index (`chosenIndex`), drop the
column when the chosen index is out of bounds (`index < 0 || index >=
len(structFields)` in the source), and otherwise record index, used-mark and
title. -/
def assignStep (cfg : ReflectColumnTitles) (nFields : Nat) (s : AState)
    (i : Nat) (f : FieldT) : AState :=
  if titleFromStructField cfg f = cfg.IgnoreTitle then
    { s with indices := s.indices ++ [-1] }
  else if chosenIndex cfg nFields s i < 0 ∨ (nFields : Int) ≤ chosenIndex cfg nFields s i then
    { s with indices := s.indices ++ [-1] }
  else
    { indices := s.indices ++ [chosenIndex cfg nFields s i],
      used := s.used ++ [chosenIndex cfg nFields s i],
      titles := s.titles ++ [titleFromStructField cfg f] }

/-- The field loop of `ColumnTitlesAndRowReflector` over the enumerated
flattened fields. -/
def assignLoop (cfg : ReflectColumnTitles) (nFields : Nat) :
    List (Nat × FieldT) → AState → AState
  | [], s => s
  | (i, f) :: rest, s => assignLoop cfg nFields rest (assignStep cfg nFields s i f)

/-- The titles and indices computed by a run of the field loop on the
flattened fields of a struct type, starting from the empty state. -/
def assignColumns (cfg : ReflectColumnTitles) (fields : List FieldT) :
    List String × List Int :=
  let s := assignLoop cfg fields.length fields.enum ⟨[], [], []⟩
  (s.titles, s.indices)

/-- Models `ReflectColumnTitles.ColumnTitlesAndRowReflector` restricted to its
observable outputs: the returned column titles and the per-field column
indices that drive the returned row reflector (the reflector closure itself is
modelled by `reflectRow` below). -/
def columnTitlesAndRowReflector (cfg : ReflectColumnTitles) (t : List SField) :
    List String × List Int :=
  assignColumns cfg (structFieldTypes t)

/-- Models the row-reflector closure returned by
`ColumnTitlesAndRowReflector`: distribute the flattened field values into a
row of `titles.length` cells (a `none` cell is a zero `reflect.Value`),
placing the value of field `i` at its assigned column index when that index is
within `[0, titles.length)`. -/
def reflectRow (titles : List String) (indices : List Int)
    (fieldValues : List Nat) : List (Option Nat) :=
  (indices.enum).foldl
    (fun cols iv =>
      if 0 ≤ iv.2 ∧ iv.2 < (titles.length : Int) then
        cols.set iv.2.toNat (fieldValues.get? iv.1)
      else cols)
    (List.replicate titles.length none)

theorem getNextFreeColumnIndex_spec (n : Nat) (used : List Int)
    (hlen : used.length < n) :
    0 ≤ getNextFreeColumnIndex n used ∧ getNextFreeColumnIndex n used < (n : Int) ∧
      getNextFreeColumnIndex n used ∉ used := by
  unfold getNextFreeColumnIndex
  cases h : (List.range n).find? (fun i => !used.contains (Int.ofNat i)) with
  | none =>
    exfalso
    have hall := List.find?_eq_none.mp h
    have hsub : (List.range n).map Int.ofNat ⊆ used := by
      intro x hx
      rcases List.mem_map.mp hx with ⟨i, hi, rfl⟩
      have hcontains := hall i hi
      simpa using hcontains
    have hnodup : ((List.range n).map Int.ofNat).Nodup :=
      List.Nodup.map (fun a b hab => Int.ofNat.inj hab) (List.nodup_range n)
    have hle := (List.subperm_of_subset hnodup hsub).length_le
    simp at hle
    omega
  | some i =>
    have hp := List.find?_some h
    have hi : i < n := List.mem_range.mp (List.mem_of_find?_eq_some h)
    simp only [Bool.not_eq_true'] at hp
    refine ⟨Int.ofNat_nonneg i, ?_, ?_⟩
    · show Int.ofNat i < (n : Int)
      exact Int.ofNat_lt.mpr hi
    · show Int.ofNat i ∉ used
      intro hmem
      have hc : used.contains (Int.ofNat i) = true := List.elem_eq_true_of_mem hmem
      rw [hc] at hp
      exact Bool.noConfusion hp

theorem chosenIndex_not_used (cfg : ReflectColumnTitles) (n : Nat) (s : AState)
    (i : Nat) (hfree : getNextFreeColumnIndex n s.used ∉ s.used) :
    chosenIndex cfg n s i ∉ s.used := by
  unfold chosenIndex
  split
  · exact hfree
  · split
    · split
      · exact hfree
      · next hc =>
          intro hmem
          exact hc (List.elem_eq_true_of_mem hmem)
    · exact hfree

/-- The loop invariant of `ColumnTitlesAndRowReflector` after `k` fields have
been processed with `n` total flattened fields: `indices` has one entry per
processed field; `used` is exactly the list of non-negative entries of
`indices`, contains no duplicates, stays inside `[0, n)`, and has one entry
per emitted title. -/
def AInv (n k : Nat) (s : AState) : Prop :=
  s.indices.length = k ∧
  s.used = s.indices.filter (fun x => decide (0 ≤ x)) ∧
  s.used.Nodup ∧
  (∀ x ∈ s.used, 0 ≤ x ∧ x < (n : Int)) ∧
  s.titles.length = s.used.length ∧
  s.used.length ≤ k

theorem assignStep_inv (cfg : ReflectColumnTitles) (n k : Nat) (s : AState)
    (i : Nat) (f : FieldT) (h : AInv n k s) (hk : k < n) :
    AInv n (k + 1) (assignStep cfg n s i f) := by
  obtain ⟨hlen, hused, hnd, hb, htl, hul⟩ := h
  have hdropInv : AInv n (k + 1) { s with indices := s.indices ++ [-1] } := by
    refine ⟨by simp [hlen], ?_, hnd, hb, htl, Nat.le_succ_of_le hul⟩
    show s.used = (s.indices ++ [-1]).filter (fun x => decide (0 ≤ x))
    rw [List.filter_append, ← hused]
    simp
  unfold assignStep
  by_cases ht : titleFromStructField cfg f = cfg.IgnoreTitle
  · rw [if_pos ht]
    exact hdropInv
  · have hfree := getNextFreeColumnIndex_spec n s.used (by omega)
    have hnotused := chosenIndex_not_used cfg n s i hfree.2.2
    by_cases hoob : chosenIndex cfg n s i < 0 ∨ (n : Int) ≤ chosenIndex cfg n s i
    · rw [if_neg ht, if_pos hoob]
      exact hdropInv
    · rcases not_or.mp hoob with ⟨h1, h2⟩
      have hlb : 0 ≤ chosenIndex cfg n s i := le_of_not_lt h1
      have hub : chosenIndex cfg n s i < (n : Int) := lt_of_not_le h2
      rw [if_neg ht, if_neg hoob]
      refine ⟨by simp [hlen], ?_, ?_, ?_, by simp [htl], ?_⟩
      · show s.used ++ [chosenIndex cfg n s i] =
          (s.indices ++ [chosenIndex cfg n s i]).filter (fun x => decide (0 ≤ x))
        rw [List.filter_append, ← hused]
        simp [hlb]
      · show (s.used ++ [chosenIndex cfg n s i]).Nodup
        rw [List.nodup_append]
        refine ⟨hnd, List.nodup_singleton _, ?_⟩
        intro x hx hx'
        rw [List.mem_singleton] at hx'
        subst hx'
        exact hnotused hx
      · intro x hx
        rcases List.mem_append.mp hx with hx | hx
        · exact hb x hx
        · rw [List.mem_singleton] at hx
          subst hx
          exact ⟨hlb, hub⟩
      · show (s.used ++ [chosenIndex cfg n s i]).length ≤ k + 1
        simp only [List.length_append, List.length_singleton]
        omega

theorem assignLoop_inv (cfg : ReflectColumnTitles) (n : Nat) :
    ∀ (l : List (Nat × FieldT)) (k : Nat) (s : AState),
      AInv n k s → k + l.length ≤ n → AInv n (k + l.length) (assignLoop cfg n l s) := by
  intro l
  induction l with
  | nil => intro k s h _; simpa using h
  | cons p rest ih =>
    intro k s h hle
    obtain ⟨i, f⟩ := p
    simp only [List.length_cons] at hle
    have hk : k < n := by omega
    have h1 := assignStep_inv cfg n k s i f h hk
    have h2 := ih (k + 1) (assignStep cfg n s i f) h1 (by omega)
    have harith : k + 1 + rest.length = k + (rest.length + 1) := by omega
    rw [harith] at h2
    simpa [assignLoop] using h2

theorem assignColumns_inv (cfg : ReflectColumnTitles) (fields : List FieldT) :
    AInv fields.length fields.length
      (assignLoop cfg fields.length fields.enum ⟨[], [], []⟩) := by
  have h0 : AInv fields.length 0 ⟨[], [], []⟩ := by
    exact ⟨rfl, rfl, List.nodup_nil, by simp, rfl, Nat.le_refl 0⟩
  have h := assignLoop_inv cfg fields.length fields.enum 0 ⟨[], [], []⟩ h0
    (by simp [List.enum_length])
  simpa [List.enum_length] using h

theorem find?_range_eq_some {p : Nat → Bool} {n m : Nat} (hm : m < n)
    (hpm : p m = true) (hlt : ∀ j, j < m → p j = false) :
    (List.range n).find? p = some m := by
  induction n with
  | zero => omega
  | succ n ih =>
    rcases Nat.lt_or_ge m n with h | h
    · rw [List.range_succ, List.find?_append, ih h]
      rfl
    · have hm' : m = n := by omega
      subst hm'
      have hnone : (List.range m).find? p = none :=
        List.find?_eq_none.mpr (by
          intro j hj
          simp [hlt j (List.mem_range.mp hj)])
      rw [List.range_succ, List.find?_append, hnone]
      simp [List.find?, hpm]

theorem getNextFreeColumnIndex_dense (n m : Nat) (used : List Int)
    (hd : used = (List.range m).map Int.ofNat) (hm : m < n) :
    getNextFreeColumnIndex n used = Int.ofNat m := by
  subst hd
  have hnotmem : Int.ofNat m ∉ (List.range m).map Int.ofNat := by
    intro hmem
    rcases List.mem_map.mp hmem with ⟨j, hj, hji⟩
    have hjm : j = m := Int.ofNat.inj hji
    subst hjm
    exact absurd (List.mem_range.mp hj) (lt_irrefl j)
  have hpm : (fun i => !((List.range m).map Int.ofNat).contains (Int.ofNat i)) m
      = true := by
    simp only [Bool.not_eq_true']
    simp [hnotmem]
  have hlt : ∀ j, j < m →
      (fun i => !((List.range m).map Int.ofNat).contains (Int.ofNat i)) j = false := by
    intro j hj
    have hmem : Int.ofNat j ∈ (List.range m).map Int.ofNat :=
      List.mem_map.mpr ⟨j, List.mem_range.mpr hj, rfl⟩
    simpa using hmem
  unfold getNextFreeColumnIndex
  rw [find?_range_eq_some hm hpm hlt]
theorem assignStep_dense (cfg : ReflectColumnTitles) (n k : Nat) (s : AState)
    (i : Nat) (f : FieldT) (hmi : cfg.MapIndices = none) (h : AInv n k s)
    (hk : k < n)
    (hd : s.used = (List.range s.used.length).map Int.ofNat) :
    (assignStep cfg n s i f).used =
      (List.range (assignStep cfg n s i f).used.length).map Int.ofNat := by
  obtain ⟨hlen, hused, hnd, hb, htl, hul⟩ := h
  have hm : s.used.length < n := by omega
  have hfree : getNextFreeColumnIndex n s.used = Int.ofNat s.used.length :=
    getNextFreeColumnIndex_dense n s.used.length s.used hd hm
  have hchosen : chosenIndex cfg n s i = Int.ofNat s.used.length := by
    unfold chosenIndex
    rw [hmi, hfree]
  unfold assignStep
  by_cases ht : titleFromStructField cfg f = cfg.IgnoreTitle
  · rw [if_pos ht]
    exact hd
  · have hnoob : ¬(chosenIndex cfg n s i < 0 ∨ (n : Int) ≤ chosenIndex cfg n s i) := by
      rw [hchosen]
      push_neg
      exact ⟨Int.ofNat_nonneg _, Int.ofNat_lt.mpr hm⟩
    rw [if_neg ht, if_neg hnoob]
    show s.used ++ [chosenIndex cfg n s i] =
      (List.range (s.used ++ [chosenIndex cfg n s i]).length).map Int.ofNat
    rw [hchosen]
    simp only [List.length_append, List.length_singleton]
    rw [List.range_succ, List.map_append]
    rw [hd]
    simp

theorem assignLoop_dense (cfg : ReflectColumnTitles) (n : Nat)
    (hmi : cfg.MapIndices = none) :
    ∀ (l : List (Nat × FieldT)) (k : Nat) (s : AState),
      AInv n k s → k + l.length ≤ n →
      s.used = (List.range s.used.length).map Int.ofNat →
      (assignLoop cfg n l s).used =
        (List.range (assignLoop cfg n l s).used.length).map Int.ofNat := by
  intro l
  induction l with
  | nil => intro k s _ _ hd; simpa using hd
  | cons p rest ih =>
    intro k s h hle hd
    obtain ⟨i, f⟩ := p
    simp only [List.length_cons] at hle
    have hk : k < n := by omega
    have h1 := assignStep_inv cfg n k s i f h hk
    have hd1 := assignStep_dense cfg n k s i f hmi h hk hd
    have h2 := ih (k + 1) (assignStep cfg n s i f) h1 (by omega) hd1
    simpa [assignLoop] using h2

/-- C1 (amended): for every struct type and configuration, the column indices
assigned to fields that receive a column (the non-negative entries of the
index table, in order) are pairwise distinct, lie inside `[0, N)` where `N` is
the total number of flattened struct fields, and there are exactly as many of
them as returned titles; when no explicit remap table is configured
(`MapIndices` is nil) they form exactly the dense range `[0, n)` with `n` the
number of titles. (With a remap table the indices need not be dense in
`[0, n)`: see the counterexample.) -/
theorem columnIndices_distinct_bounded_dense (cfg : ReflectColumnTitles)
    (t : List SField) :
    ((columnTitlesAndRowReflector cfg t).2.filter (fun x => decide (0 ≤ x))).Nodup ∧
    (∀ x ∈ (columnTitlesAndRowReflector cfg t).2.filter (fun x => decide (0 ≤ x)),
      0 ≤ x ∧ x < ((structFieldTypes t).length : Int)) ∧
    ((columnTitlesAndRowReflector cfg t).2.filter (fun x => decide (0 ≤ x))).length =
      (columnTitlesAndRowReflector cfg t).1.length ∧
    (cfg.MapIndices = none →
      (columnTitlesAndRowReflector cfg t).2.filter (fun x => decide (0 ≤ x)) =
        (List.range ((columnTitlesAndRowReflector cfg t).1.length)).map Int.ofNat) := by
  have hinv := assignColumns_inv cfg (structFieldTypes t)
  obtain ⟨hlen, hused, hnd, hb, htl, hul⟩ := hinv
  have heq : columnTitlesAndRowReflector cfg t =
      ((assignLoop cfg (structFieldTypes t).length (structFieldTypes t).enum
        ⟨[], [], []⟩).titles,
       (assignLoop cfg (structFieldTypes t).length (structFieldTypes t).enum
        ⟨[], [], []⟩).indices) := rfl
  rw [heq]
  refine ⟨?_, ?_, ?_, ?_⟩
  · rw [← hused]; exact hnd
  · rw [← hused]; exact hb
  · rw [← hused]; exact htl.symm
  · intro hmi
    have h0 : AInv (structFieldTypes t).length 0 (⟨[], [], []⟩ : AState) :=
      ⟨rfl, rfl, List.nodup_nil, by simp, rfl, Nat.le_refl 0⟩
    have hd := assignLoop_dense cfg (structFieldTypes t).length hmi
      (structFieldTypes t).enum 0 ⟨[], [], []⟩ h0 (by simp [List.enum_length]) rfl
    rw [← hused, hd]
    rw [show ((assignLoop cfg (structFieldTypes t).length (structFieldTypes t).enum
      ⟨[], [], []⟩).titles,
      (assignLoop cfg (structFieldTypes t).length (structFieldTypes t).enum
      ⟨[], [], []⟩).indices).1 = (assignLoop cfg (structFieldTypes t).length
      (structFieldTypes t).enum ⟨[], [], []⟩).titles from rfl, htl]

/-- C1 counterexample: with `IgnoreTitle = "-"`, one field tagged to be
ignored, and a remap entry sending field 0 to column 2 (in bounds for the 3
flattened fields), the two non-ignored fields get titles `["A", "B"]` but
assigned column indices `[2, 0]` — pairwise distinct, yet not the dense range
`[0, 2)` claimed (index 2 is not below the number of non-ignored fields). -/
theorem columnIndices_dense_counterexample :
    columnTitlesAndRowReflector ⟨"col", "-", none, some [(0, 2)]⟩
        [.plain ⟨"A", []⟩, .plain ⟨"B", []⟩, .plain ⟨"C", [("col", "-")]⟩] =
      (["A", "B"], [2, 0, -1]) ∧
    ((columnTitlesAndRowReflector ⟨"col", "-", none, some [(0, 2)]⟩
        [.plain ⟨"A", []⟩, .plain ⟨"B", []⟩,
          .plain ⟨"C", [("col", "-")]⟩]).2.filter (fun x => decide (0 ≤ x)) ≠
      (List.range ((columnTitlesAndRowReflector ⟨"col", "-", none, some [(0, 2)]⟩
        [.plain ⟨"A", []⟩, .plain ⟨"B", []⟩,
          .plain ⟨"C", [("col", "-")]⟩]).1.length)).map Int.ofNat) := by
  have hf : structFieldTypes [.plain ⟨"A", []⟩, .plain ⟨"B", []⟩,
      .plain ⟨"C", [("col", "-")]⟩] =
      [⟨"A", []⟩, ⟨"B", []⟩, ⟨"C", [("col", "-")]⟩] := by
    have hA : isExported "A" = true := by decide
    have hB : isExported "B" = true := by decide
    have hC : isExported "C" = true := by decide
    simp [structFieldTypes, hA, hB, hC]
  have hv : columnTitlesAndRowReflector ⟨"col", "-", none, some [(0, 2)]⟩
      [.plain ⟨"A", []⟩, .plain ⟨"B", []⟩, .plain ⟨"C", [("col", "-")]⟩] =
      (["A", "B"], [2, 0, -1]) := by
    show assignColumns ⟨"col", "-", none, some [(0, 2)]⟩
      (structFieldTypes [.plain ⟨"A", []⟩, .plain ⟨"B", []⟩,
        .plain ⟨"C", [("col", "-")]⟩]) = (["A", "B"], [2, 0, -1])
    rw [hf]
    decide
  refine ⟨hv, ?_⟩
  rw [hv]
  decide

/-- C1 witness: the distinctness and density conclusions of
`columnIndices_distinct_bounded_dense` at a concrete two-field struct type
with no remap table configured (the density hypothesis `MapIndices = none`
discharged by `rfl`). -/
theorem columnIndices_distinct_bounded_dense_witness :
    ((columnTitlesAndRowReflector ⟨"col", "-", none, none⟩
        [.plain ⟨"A", []⟩, .plain ⟨"B", []⟩]).2.filter
      (fun x => decide (0 ≤ x))).Nodup ∧
    (columnTitlesAndRowReflector ⟨"col", "-", none, none⟩
        [.plain ⟨"A", []⟩, .plain ⟨"B", []⟩]).2.filter (fun x => decide (0 ≤ x)) =
      [0, 1] := by
  have h := columnIndices_distinct_bounded_dense ⟨"col", "-", none, none⟩
    [.plain ⟨"A", []⟩, .plain ⟨"B", []⟩]
  refine ⟨h.1, ?_⟩
  rw [h.2.2.2 rfl]
  have hf : structFieldTypes [SField.plain ⟨"A", []⟩, SField.plain ⟨"B", []⟩] =
      [⟨"A", []⟩, ⟨"B", []⟩] := by
    have hA : isExported "A" = true := by decide
    have hB : isExported "B" = true := by decide
    simp [structFieldTypes, hA, hB]
  have hv : columnTitlesAndRowReflector ⟨"col", "-", none, none⟩
      [.plain ⟨"A", []⟩, .plain ⟨"B", []⟩] = (["A", "B"], [0, 1]) := by
    show assignColumns ⟨"col", "-", none, none⟩
      (structFieldTypes [.plain ⟨"A", []⟩, .plain ⟨"B", []⟩]) = (["A", "B"], [0, 1])
    rw [hf]
    decide
  rw [hv]
  decide

/-- C2 (amended): for a field whose title is not the ignore sentinel and whose
remap entry requests column `mapped`: if the requested index is already used
by an earlier field, the loop falls back to the next free column index — the
field keeps a column, gets a fresh in-bounds index, and no error occurs; but
if the requested index is out of bounds (negative or at least the number of
flattened fields) and not already used, the field's column IS dropped (index
`-1`, no title emitted), contrary to the claim's "never drops". -/
theorem assignStep_collision_fallback_oob_drop (cfg : ReflectColumnTitles)
    (n : Nat) (s : AState) (i : Nat) (f : FieldT) (m : List (Int × Int))
    (mapped : Int) (hmi : cfg.MapIndices = some m)
    (hlk : lookupMap m (Int.ofNat i) = some mapped)
    (ht : titleFromStructField cfg f ≠ cfg.IgnoreTitle)
    (hlen : s.used.length < n) :
    (mapped ∈ s.used →
      assignStep cfg n s i f =
        ⟨s.indices ++ [getNextFreeColumnIndex n s.used],
         s.used ++ [getNextFreeColumnIndex n s.used],
         s.titles ++ [titleFromStructField cfg f]⟩ ∧
      0 ≤ getNextFreeColumnIndex n s.used ∧
      getNextFreeColumnIndex n s.used < (n : Int) ∧
      getNextFreeColumnIndex n s.used ∉ s.used) ∧
    (mapped ∉ s.used → (mapped < 0 ∨ (n : Int) ≤ mapped) →
      assignStep cfg n s i f = { s with indices := s.indices ++ [-1] }) := by
  have hfree := getNextFreeColumnIndex_spec n s.used hlen
  constructor
  · intro hmem
    have hc : s.used.contains mapped = true := List.elem_eq_true_of_mem hmem
    have hchosen : chosenIndex cfg n s i = getNextFreeColumnIndex n s.used := by
      unfold chosenIndex
      rw [hmi]
      simp only [hlk, hc, if_true]
    have hnoob : ¬(chosenIndex cfg n s i < 0 ∨
        (n : Int) ≤ chosenIndex cfg n s i) := by
      rw [hchosen]
      push_neg
      exact ⟨hfree.1, lt_of_lt_of_le hfree.2.1 (le_refl _)⟩
    refine ⟨?_, hfree.1, hfree.2.1, hfree.2.2⟩
    unfold assignStep
    rw [if_neg ht, if_neg hnoob, hchosen]
  · intro hmem hoobm
    have hc : s.used.contains mapped = false := by
      rw [← Bool.not_eq_true]
      intro hc'
      exact hmem (List.mem_of_elem_eq_true hc')
    have hchosen : chosenIndex cfg n s i = mapped := by
      unfold chosenIndex
      rw [hmi]
      simp only [hlk, hc]
      rfl
    have hoob : chosenIndex cfg n s i < 0 ∨ (n : Int) ≤ chosenIndex cfg n s i := by
      rw [hchosen]; exact hoobm
    unfold assignStep
    rw [if_neg ht, if_pos hoob]

/-- C2 counterexample: a single-field struct with remap entry `0 ↦ 5` (out of
bounds for 1 field). The claim says the field falls back to the next free
index 0 and keeps its column; the code instead drops the column entirely:
no title is emitted and the field's index is `-1`. -/
theorem remap_out_of_bounds_drops_column :
    columnTitlesAndRowReflector ⟨"col", "-", none, some [(0, 5)]⟩
        [.plain ⟨"A", []⟩] = ([], [-1]) ∧
    columnTitlesAndRowReflector ⟨"col", "-", none, some [(0, 5)]⟩
        [.plain ⟨"A", []⟩] ≠ (["A"], [0]) := by
  have hf : structFieldTypes [SField.plain ⟨"A", []⟩] = [⟨"A", []⟩] := by
    have hA : isExported "A" = true := by decide
    simp [structFieldTypes, hA]
  have hv : columnTitlesAndRowReflector ⟨"col", "-", none, some [(0, 5)]⟩
      [.plain ⟨"A", []⟩] = ([], [-1]) := by
    show assignColumns ⟨"col", "-", none, some [(0, 5)]⟩
      (structFieldTypes [.plain ⟨"A", []⟩]) = ([], [-1])
    rw [hf]
    decide
  exact ⟨hv, by rw [hv]; decide⟩

/-- C2 witness: the collision branch of
`assignStep_collision_fallback_oob_drop` at a concrete state: field 1
requests column 0, already used by field 0, and is assigned the next free
index 1 instead, keeping its column and title. -/
theorem assignStep_collision_fallback_witness :
    assignStep ⟨"col", "-", none, some [(0, 0), (1, 0)]⟩ 2 ⟨[0], [0], ["A"]⟩ 1
        ⟨"B", []⟩ = ⟨[0, 1], [0, 1], ["A", "B"]⟩ := by
  have h := (assignStep_collision_fallback_oob_drop
      ⟨"col", "-", none, some [(0, 0), (1, 0)]⟩ 2 ⟨[0], [0], ["A"]⟩ 1 ⟨"B", []⟩
      [(0, 0), (1, 0)] 0 rfl (by decide) (by decide) (by decide)).1 (by decide)
  rw [h.1]
  decide

/-! ## TextRenderer.toString (src/textrenderer.go)

The reflect values reaching `toString` are embedded as a universe of base
(non-pointer, non-interface) values, single-level pointers to base values
(nil or not), and nil interface values, which covers the claims about
null/missing values. Types are identified by `Nat` ids. A base value of a
kind outside bool/string/int carries the outputs of its optional
`fmt.Stringer` implementation and of the `fmt.Sprint` fallback (the float
branch and the `[]byte` branch of the source are subsumed by this fallback
representation). `reflection.DerefValueAndType` (from the external
`go-reflection` dependency) dereferences pointer values and types only — per
its documentation and the call-site comment, dereferencing a nil pointer
yields an invalid value — so an interface value is not dereferenced: its
deref type is the interface type and its deref value is the (valid)
interface value itself, even when the interface is nil. -/

/-- A non-pointer, non-interface Go value: type id plus payload. -/
inductive BaseVal where
  | vBool (tyId : Nat) (b : Bool)
  | vStr (tyId : Nat) (s : String)
  | vInt (tyId : Nat) (i : Int)
  | vOther (tyId : Nat) (stringer : Option String) (sprint : String)

/-- A Go value as seen by `toString`: base value, nil or non-nil pointer to a
base value, or a nil interface of some interface type. -/
inductive GoVal where
  | base (b : BaseVal)
  | ptrNil (elemTyId : Nat)
  | ptrTo (b : BaseVal)
  | ifaceNil (ifaceTyId : Nat)

/-- The type id of a base value. -/
def BaseVal.tyId : BaseVal → Nat
  | .vBool t _ => t
  | .vStr t _ => t
  | .vInt t _ => t
  | .vOther t _ _ => t

/-- The type component of `reflection.DerefValueAndType`: the pointed-to type
for pointers, the value's own type otherwise. -/
def GoVal.derefTypeId : GoVal → Nat
  | .base b => b.tyId
  | .ptrNil t => t
  | .ptrTo b => b.tyId
  | .ifaceNil t => t

/-- The value component of `reflection.DerefValueAndType`: `none` models the
invalid `reflect.Value` obtained by dereferencing a nil pointer. -/
def GoVal.derefVal : GoVal → Option GoVal
  | .ptrNil _ => none
  | .ptrTo b => some (.base b)
  | .base b => some (.base b)
  | .ifaceNil t => some (.ifaceNil t)

/-- Models `valType.Kind() ∈ {Ptr, Interface} && val.IsNil()`: the top-level
nil check of `toString`. -/
def GoVal.isNilPtrOrIface : GoVal → Bool
  | .ptrNil _ => true
  | .ifaceNil _ => true
  | _ => false

/-- Models the fields of `TextFormatConfig` exercised by `toString`:
the `Nil`/`True`/`False` tokens and the `TypeFormatters` table. A formatter is
keyed by (deref) type id and receives the dereferenced value; the `config`
argument of the Go `TextFormatter` interface is closed over by the function.
The float/date/money formatting fields are not needed for the nil-value
claims and are omitted. -/
structure TextFormatConfig where
  Nil : String
  True : String
  False : String
  TypeFormatters : List (Nat × (GoVal → String))

/-- Go map lookup in the `TypeFormatters` table. -/
def lookupFormatter : List (Nat × (GoVal → String)) → Nat → Option (GoVal → String)
  | [], _ => none
  | (k, f) :: rest, t => if k = t then some f else lookupFormatter rest t

/-- Models `TextRenderer.toString`: custom formatter first (only when the
dereferenced value is valid), then the nil check returning `config.Nil`, then
the kind switch on the dereferenced type (bool/string/int), then the
`fmt.Stringer` checks and the `fmt.Sprint` fallback. The final wildcard arm is
unreachable: `derefVal` is `none` only for nil pointers, which the nil check
already returned on. -/
def TextRenderer.toString (cfg : TextFormatConfig) (val : GoVal) : String :=
  match lookupFormatter cfg.TypeFormatters val.derefTypeId, val.derefVal with
  | some f, some dv => f dv
  | _, _ =>
    if val.isNilPtrOrIface then cfg.Nil
    else
      match val.derefVal with
      | some (.base (.vBool _ b)) => if b then cfg.True else cfg.False
      | some (.base (.vStr _ s)) => s
      | some (.base (.vInt _ i)) => ToString.toString i
      | some (.base (.vOther _ (some str) _)) => str
      | some (.base (.vOther _ none sprint)) => sprint
      | _ => cfg.Nil

/-- C6 (amended): formatting a top-level nil pointer returns exactly the
configured null token, for every configuration — no custom type handler is
consulted because the dereferenced value of a nil pointer is invalid; and
formatting a top-level nil interface returns the null token provided no
formatter is registered for the interface type itself. (A formatter
registered for the exact interface type IS consulted on a nil interface,
because the interface value itself is valid: see the counterexample.)
Formatting is a total function into strings, so it never returns an error. -/
theorem toString_nil_returns_nullToken (cfg : TextFormatConfig) (t : Nat) :
    TextRenderer.toString cfg (GoVal.ptrNil t) = cfg.Nil ∧
    (lookupFormatter cfg.TypeFormatters t = none →
      TextRenderer.toString cfg (GoVal.ifaceNil t) = cfg.Nil) := by
  constructor
  · unfold TextRenderer.toString
    cases h : lookupFormatter cfg.TypeFormatters (GoVal.ptrNil t).derefTypeId <;>
      simp [GoVal.derefVal, GoVal.isNilPtrOrIface]
  · intro hnone
    unfold TextRenderer.toString
    have ht : (GoVal.ifaceNil t).derefTypeId = t := rfl
    rw [ht, hnone]
    simp [GoVal.derefVal, GoVal.isNilPtrOrIface]

/-- C6 witness: `toString_nil_returns_nullToken` applied with the null token
set to `"N/A"` and, in a second application, to `""`, at a nil pointer and a
nil interface with an empty formatter table (the lookup hypothesis discharged
by `rfl`). -/
theorem toString_nil_returns_nullToken_witness :
    TextRenderer.toString ⟨"N/A", "true", "false", []⟩ (GoVal.ptrNil 3) = "N/A" ∧
    TextRenderer.toString ⟨"N/A", "true", "false", []⟩ (GoVal.ifaceNil 3) = "N/A" ∧
    TextRenderer.toString ⟨"", "true", "false", []⟩ (GoVal.ifaceNil 3) = "" := by
  refine ⟨(toString_nil_returns_nullToken ⟨"N/A", "true", "false", []⟩ 3).1,
    (toString_nil_returns_nullToken ⟨"N/A", "true", "false", []⟩ 3).2 rfl,
    (toString_nil_returns_nullToken ⟨"", "true", "false", []⟩ 3).2 rfl⟩

/-- C6 counterexample: with a formatter registered for the interface type id 7
itself, formatting a nil interface of that type invokes the handler — the
dereferenced value of an interface is the (valid) interface value, since only
pointers are dereferenced — and returns the handler's output `"X"` rather
than the configured null token `""`. -/
theorem toString_nil_iface_formatter_counterexample :
    TextRenderer.toString ⟨"", "true", "false", [(7, fun _ => "X")]⟩
        (GoVal.ifaceNil 7) = "X" ∧
    TextFormatConfig.Nil ⟨"", "true", "false", [(7, fun _ => "X")]⟩ = "" ∧
    ("X" : String) ≠ "" := by
  exact ⟨rfl, rfl, by decide⟩

/-! ## TextRenderer render state machine (src/textrenderer.go)

The `TextFormatRenderer` backend is embedded as pure text emitters (the
claims about hook invocations do not involve backend I/O errors), and the
`TextRenderer` state carries the accumulation buffer and the `beginWritten`
flag of the source. The `*Calls` counters instrument the model with the
number of invocations of each backend hook; they are not part of the source
state and are only read by the theorems. -/

/-- A `TextFormatRenderer` backend, as pure text emitters. -/
structure TextFormat where
  beginText : String
  headerText : List String → String
  rowText : List String → String
  endText : String

/-- The `TextRenderer` state: buffer and `beginWritten` flag from the source,
plus hook-invocation counters instrumenting the model. -/
structure TRState where
  buf : String
  beginWritten : Bool
  beginCalls : Nat
  headerCalls : Nat
  rowCalls : Nat
  endCalls : Nat
  deriving DecidableEq, Repr

/-- Models `NewTextRenderer`: empty buffer, begin not yet written. -/
def newTextRenderer : TRState :=
  ⟨"", false, 0, 0, 0, 0⟩

/-- Models `TextRenderer.writeBeginIfMissing`: emit the begin hook into the
buffer only when it has not been written yet. -/
def writeBeginIfMissing (fm : TextFormat) (s : TRState) : TRState :=
  if s.beginWritten then s
  else { s with buf := s.buf ++ fm.beginText, beginWritten := true,
                beginCalls := s.beginCalls + 1 }

/-- Models `TextRenderer.RenderHeaderRow`: begin-if-missing, then the header
hook. -/
def renderHeaderRow (fm : TextFormat) (s : TRState) (columnTitles : List String) :
    TRState :=
  let s := writeBeginIfMissing fm s
  { s with buf := s.buf ++ fm.headerText columnTitles,
           headerCalls := s.headerCalls + 1 }

/-- Models `TextRenderer.RenderRow`: begin-if-missing, format every column
value with `toString`, then the row hook. -/
def renderRow (fm : TextFormat) (cfg : TextFormatConfig) (s : TRState)
    (columnValues : List GoVal) : TRState :=
  let s := writeBeginIfMissing fm s
  { s with buf := s.buf ++ fm.rowText (columnValues.map (TextRenderer.toString cfg)),
           rowCalls := s.rowCalls + 1 }

/-- Models `TextRenderer.Result`: appends the end hook's text to the buffer
(unconditionally — the source keeps no `endWritten` flag) and returns the new
state together with the buffer contents. -/
def TextRenderer.result (fm : TextFormat) (s : TRState) : TRState × String :=
  let s := { s with buf := s.buf ++ fm.endText, endCalls := s.endCalls + 1 }
  (s, s.buf)

/-- C3 (amended): `Result` never re-invokes the begin or header (or row)
hooks, but it invokes the end hook on every call: after calling `Result`
twice the end hook has run twice and the second returned buffer carries the
end text twice — it is not the already-finalized buffer of the first call.
`writeBeginIfMissing` itself is idempotent, which is what keeps the begin
hook from re-firing. -/
theorem result_twice_appends_end_twice (fm : TextFormat) (s : TRState) :
    (TextRenderer.result fm (TextRenderer.result fm s).1).1.endCalls =
      s.endCalls + 2 ∧
    (TextRenderer.result fm (TextRenderer.result fm s).1).1.beginCalls =
      s.beginCalls ∧
    (TextRenderer.result fm (TextRenderer.result fm s).1).1.headerCalls =
      s.headerCalls ∧
    (TextRenderer.result fm (TextRenderer.result fm s).1).1.rowCalls =
      s.rowCalls ∧
    (TextRenderer.result fm (TextRenderer.result fm s).1).2 =
      s.buf ++ fm.endText ++ fm.endText ∧
    (TextRenderer.result fm s).2 = s.buf ++ fm.endText ∧
    writeBeginIfMissing fm (writeBeginIfMissing fm s) = writeBeginIfMissing fm s := by
  refine ⟨rfl, rfl, rfl, rfl, rfl, rfl, ?_⟩
  unfold writeBeginIfMissing
  by_cases h : s.beginWritten
  · simp [h]
  · simp [h]

/-- C3 counterexample: on a concrete renderer that has rendered one header
row over a backend with begin text `"B"`, header text `"H"` and end text
`"E"`, calling `Result` twice invokes the end hook a second time (two end
invocations recorded) and the second retrieval returns `"BHEE"`, not the
already-finalized buffer `"BHE"` of the first call. -/
theorem result_twice_not_idempotent :
    (TextRenderer.result ⟨"B", fun _ => "H", fun _ => "R", "E"⟩
      (TextRenderer.result ⟨"B", fun _ => "H", fun _ => "R", "E"⟩
        (renderHeaderRow ⟨"B", fun _ => "H", fun _ => "R", "E"⟩
          newTextRenderer ["t"])).1).1.endCalls = 2 ∧
    (TextRenderer.result ⟨"B", fun _ => "H", fun _ => "R", "E"⟩
      (TextRenderer.result ⟨"B", fun _ => "H", fun _ => "R", "E"⟩
        (renderHeaderRow ⟨"B", fun _ => "H", fun _ => "R", "E"⟩
          newTextRenderer ["t"])).1).2 = "BHEE" ∧
    (TextRenderer.result ⟨"B", fun _ => "H", fun _ => "R", "E"⟩
      (renderHeaderRow ⟨"B", fun _ => "H", fun _ => "R", "E"⟩
        newTextRenderer ["t"])).2 = "BHE" ∧
    ("BHEE" : String) ≠ "BHE" := by
  refine ⟨rfl, by decide, by decide, by decide⟩

/-! ## Read (src/reader.go)

The `Reader` interface is embedded as a structure of functions; `NumRows` is
a Go `int` (an implementation may in principle return any integer), row
reading returns `Except`. `Read`'s destination argument is embedded by the
reflection attributes the validation inspects: its type shape (`none` models
an untyped nil, whose reflect kind is `Invalid`) and whether the pointer is
nil. The caller's destination slice contents are passed in explicitly and the
(possibly updated) contents are returned alongside the outcome, making the
source's single late assignment `destVal.Elem().Set(sliceVal)` explicit. Row
structs are opaque handles (`Nat`); whether the slice elements are structs or
pointers to structs does not change the returned contents in this model. The
`panicked` outcome models the `reflect.MakeSlice` panic on a negative
length. -/

/-- The reflect type shapes distinguished by `Read`'s validation. -/
inductive GoTy where
  | tStruct
  | tSlice (elem : GoTy)
  | tPtr (elem : GoTy)
  | tOther
  deriving DecidableEq, Repr

/-- The destination argument of `Read` as seen by reflection: its type shape
(`none` for an untyped nil) and nil-ness. -/
structure DestVal where
  ty : Option GoTy
  isNil : Bool
  deriving DecidableEq, Repr

/-- The `Reader` interface of src/reader.go. `readRow` returns the struct
value (an opaque handle) read into the freshly allocated row. -/
structure MReader where
  numRows : Int
  readRowStrings : Nat → Except String (List String)
  readRow : Nat → Except String Nat

/-- The outcome of `Read`: header rows on success, an error, or a runtime
panic. -/
inductive ReadOut where
  | ok (headerRows : List (List String))
  | err (msg : String)
  | panicked
  deriving DecidableEq, Repr

/-- Models the validation prefix of `Read` in source order: kind must be
pointer, pointer must be non-nil, pointee must be a slice, the slice element
(after dereferencing one pointer level) must be a struct. Returns the struct
type and `isSliceOfPtr`. -/
def readValidate (d : DestVal) : Except String (GoTy × Bool) :=
  match d.ty with
  | none => .error "structSlicePtr must be pointer to a struct slice"
  | some t =>
    match t with
    | .tPtr pointee =>
      if d.isNil then .error "structSlicePtr must not be nil"
      else
        match pointee with
        | .tSlice elem =>
          match elem with
          | .tPtr e =>
            match e with
            | .tStruct => .ok (e, true)
            | _ => .error "structSlicePtr must be pointer to a struct slice"
          | .tStruct => .ok (elem, false)
          | _ => .error "structSlicePtr must be pointer to a struct slice"
        | _ => .error "structSlicePtr must be pointer to a struct slice"
    | _ => .error "structSlicePtr must be pointer to a struct slice"

/-- The header loop of `Read` run for `k` iterations: reads rows `0..k-1`
in order, appending to the accumulated header rows, stopping at the first
error. (`Read` runs it for `min numHeaderRows NumRows` iterations, per the
loop condition `i < numHeaderRows && i < reader.NumRows()`.) -/
def headerLoop (r : MReader) : Nat → Except String (List (List String))
  | 0 => .ok []
  | k + 1 =>
    match headerLoop r k with
    | .error e => .error e
    | .ok rows =>
      match r.readRowStrings k with
      | .error e => .error e
      | .ok row => .ok (rows ++ [row])

/-- The data-row loop of `Read` run for `k` iterations: reads rows
`base..base+k-1` via `ReadRow` into freshly allocated structs, stopping at
the first error. -/
def dataLoop (r : MReader) (base : Nat) : Nat → Except String (List Nat)
  | 0 => .ok []
  | k + 1 =>
    match dataLoop r base k with
    | .error e => .error e
    | .ok rows =>
      match r.readRow (base + k) with
      | .error e => .error e
      | .ok v => .ok (rows ++ [v])

/-- Models `Read`: negative-header check, destination validation, header
loop, `numRows := NumRows() - numHeaderRows` with the `MakeSlice` panic on a
negative length, data-row loop, and only then the assignment to the caller's
destination. Returns the final destination contents and the outcome. -/
def Read (r : MReader) (d : DestVal) (dest0 : List Nat) (numHeaderRows : Int) :
    List Nat × ReadOut :=
  if numHeaderRows < 0 then (dest0, .err "numHeaderRows can't be negative")
  else
    match readValidate d with
    | .error e => (dest0, .err e)
    | .ok _ =>
      match headerLoop r (min numHeaderRows r.numRows).toNat with
      | .error e => (dest0, .err e)
      | .ok headerRows =>
        if r.numRows - numHeaderRows < 0 then (dest0, .panicked)
        else
          match dataLoop r numHeaderRows.toNat (r.numRows - numHeaderRows).toNat with
          | .error e => (dest0, .err e)
          | .ok rows => (rows, .ok headerRows)

/-- The claim's destination precondition: a non-nil pointer to a slice of
structs or of pointers to structs (stated from the claim's words; `Read`'s
validation accepts exactly these shapes). -/
def isStructSlicePtr (d : DestVal) : Bool :=
  match d.ty with
  | some (.tPtr (.tSlice .tStruct)) => !d.isNil
  | some (.tPtr (.tSlice (.tPtr .tStruct))) => !d.isNil
  | _ => false

theorem readValidate_error_of_invalid (d : DestVal)
    (h : isStructSlicePtr d = false) : ∃ e, readValidate d = Except.error e := by
  rcases d with ⟨ty, isNil⟩
  cases ty with
  | none => exact ⟨_, rfl⟩
  | some t =>
    cases t with
    | tStruct => exact ⟨_, rfl⟩
    | tOther => exact ⟨_, rfl⟩
    | tSlice e => exact ⟨_, rfl⟩
    | tPtr pointee =>
      cases hn : isNil with
      | true =>
        subst hn
        exact ⟨"structSlicePtr must not be nil", rfl⟩
      | false =>
        subst hn
        cases pointee with
        | tStruct => exact ⟨_, rfl⟩
        | tOther => exact ⟨_, rfl⟩
        | tPtr e => exact ⟨_, rfl⟩
        | tSlice elem =>
          cases elem with
          | tStruct => simp [isStructSlicePtr] at h
          | tOther => exact ⟨_, rfl⟩
          | tSlice e2 => exact ⟨_, rfl⟩
          | tPtr e =>
            cases e with
            | tStruct => simp [isStructSlicePtr] at h
            | tOther => exact ⟨_, rfl⟩
            | tSlice e2 => exact ⟨_, rfl⟩
            | tPtr e2 => exact ⟨_, rfl⟩

theorem readValidate_ok_of_valid (d : DestVal)
    (h : isStructSlicePtr d = true) : ∃ pr, readValidate d = Except.ok pr := by
  rcases d with ⟨ty, isNil⟩
  cases ty with
  | none => simp [isStructSlicePtr] at h
  | some t =>
    cases t with
    | tStruct => simp [isStructSlicePtr] at h
    | tOther => simp [isStructSlicePtr] at h
    | tSlice e => simp [isStructSlicePtr] at h
    | tPtr pointee =>
      cases pointee with
      | tStruct => simp [isStructSlicePtr] at h
      | tOther => simp [isStructSlicePtr] at h
      | tPtr e => simp [isStructSlicePtr] at h
      | tSlice elem =>
        cases elem with
        | tOther => simp [isStructSlicePtr] at h
        | tSlice e2 => simp [isStructSlicePtr] at h
        | tStruct =>
          have hn : isNil = false := by simpa [isStructSlicePtr] using h
          subst hn
          exact ⟨(GoTy.tStruct, false), rfl⟩
        | tPtr e =>
          cases e with
          | tStruct =>
            have hn : isNil = false := by simpa [isStructSlicePtr] using h
            subst hn
            exact ⟨(GoTy.tStruct, true), rfl⟩
          | tOther => simp [isStructSlicePtr] at h
          | tSlice e2 => simp [isStructSlicePtr] at h
          | tPtr e2 => simp [isStructSlicePtr] at h

theorem headerLoop_ok (r : MReader) (k : Nat) (hs : List (List String))
    (h : headerLoop r k = Except.ok hs) :
    hs.length = k ∧ ∀ j, j < k → r.readRowStrings j = Except.ok (hs.getD j []) := by
  induction k generalizing hs with
  | zero =>
    unfold headerLoop at h
    cases h
    exact ⟨rfl, by intro j hj; omega⟩
  | succ k ih =>
    unfold headerLoop at h
    cases hk : headerLoop r k with
    | error e => rw [hk] at h; exact Except.noConfusion h
    | ok rows =>
      rw [hk] at h
      cases hr : r.readRowStrings k with
      | error e => rw [hr] at h; exact Except.noConfusion h
      | ok row =>
        rw [hr] at h
        have hrows : rows ++ [row] = hs := by
          injection h
        obtain ⟨hlen, hidx⟩ := ih rows hk
        subst hrows
        refine ⟨by simp [hlen], ?_⟩
        intro j hj
        rcases Nat.lt_or_ge j k with hjk | hjk
        · rw [List.getD_append rows [row] [] j (by omega), hidx j hjk]
        · have hjeq : j = k := by omega
          subst hjeq
          rw [List.getD_append_right rows [row] [] j (by omega)]
          simp [hlen, hr]

theorem dataLoop_ok (r : MReader) (base : Nat) (k : Nat) (rows : List Nat)
    (h : dataLoop r base k = Except.ok rows) : rows.length = k := by
  induction k generalizing rows with
  | zero =>
    unfold dataLoop at h
    cases h
    rfl
  | succ k ih =>
    unfold dataLoop at h
    cases hk : dataLoop r base k with
    | error e => rw [hk] at h; exact Except.noConfusion h
    | ok rows0 =>
      rw [hk] at h
      cases hr : r.readRow (base + k) with
      | error e => rw [hr] at h; exact Except.noConfusion h
      | ok v =>
        rw [hr] at h
        have hrows : rows0 ++ [v] = rows := by injection h
        subst hrows
        simp [ih rows0 hk]

/-- C5: whenever the destination argument is not a non-nil pointer to a slice
of structs or of pointers to structs, or `numHeaderRows` is negative, `Read`
returns an error whose value does not depend on the reader at all (so no row
is read), and the caller's destination contents are returned untouched. -/
theorem read_invalid_dest_errors (d : DestVal) (dest0 : List Nat)
    (numHeaderRows : Int)
    (hbad : isStructSlicePtr d = false ∨ numHeaderRows < 0) :
    ∃ e, ∀ r' : MReader, Read r' d dest0 numHeaderRows = (dest0, ReadOut.err e) := by
  by_cases hneg : numHeaderRows < 0
  · exact ⟨"numHeaderRows can't be negative", fun r' => by
      unfold Read
      rw [if_pos hneg]⟩
  · have hbad' : isStructSlicePtr d = false := by
      rcases hbad with hbad | hbad
      · exact hbad
      · exact absurd hbad hneg
    obtain ⟨e, he⟩ := readValidate_error_of_invalid d hbad'
    exact ⟨e, fun r' => by
      unfold Read
      rw [if_neg hneg, he]⟩

/-- C5 witness: `read_invalid_dest_errors` at a destination that is a struct
(not a pointer) with `numHeaderRows = 0`: the outcome is an error and the
destination contents `[5]` are unchanged, for a concrete reader. -/
theorem read_invalid_dest_errors_witness :
    (Read ⟨1, fun _ => Except.ok ["a"], fun _ => Except.ok 0⟩
      ⟨some GoTy.tStruct, false⟩ [5] 0).1 = [5] ∧
    (Read ⟨1, fun _ => Except.ok ["a"], fun _ => Except.ok 0⟩
      ⟨some GoTy.tStruct, false⟩ [5] 0).2 ≠ ReadOut.ok [] ∧
    (Read ⟨1, fun _ => Except.ok ["a"], fun _ => Except.ok 0⟩
      ⟨some GoTy.tStruct, false⟩ [5] 0).2 ≠ ReadOut.panicked := by
  obtain ⟨e, hall⟩ := read_invalid_dest_errors
    ⟨some GoTy.tStruct, false⟩ [5] 0 (Or.inl (by decide))
  rw [hall ⟨1, fun _ => Except.ok ["a"], fun _ => Except.ok 0⟩]
  exact ⟨rfl, fun hc => ReadOut.noConfusion hc, fun hc => ReadOut.noConfusion hc⟩

theorem Read_shape (r : MReader) (d : DestVal) (dest0 : List Nat) (h : Int) :
    (∃ e, Read r d dest0 h = (dest0, ReadOut.err e)) ∨
    (Read r d dest0 h = (dest0, ReadOut.panicked) ∧ ¬h < 0 ∧ r.numRows - h < 0) ∨
    (∃ hr rows, Read r d dest0 h = (rows, ReadOut.ok hr) ∧ ¬h < 0 ∧
      ¬r.numRows - h < 0 ∧
      headerLoop r (min h r.numRows).toNat = Except.ok hr ∧
      dataLoop r h.toNat (r.numRows - h).toNat = Except.ok rows) := by
  unfold Read
  split
  · exact Or.inl ⟨_, rfl⟩
  · next hneg =>
    split
    · exact Or.inl ⟨_, rfl⟩
    · split
      · exact Or.inl ⟨_, rfl⟩
      · next hrs hhead =>
        split
        · next hnr => exact Or.inr (Or.inl ⟨rfl, hneg, hnr⟩)
        · next hnr =>
          split
          · exact Or.inl ⟨_, rfl⟩
          · next rows hdata =>
            exact Or.inr (Or.inr ⟨hrs, rows, rfl, hneg, hnr, hhead, hdata⟩)

/-- C4: for every reader, destination and header count, whenever `Read`
returns an error the caller's destination contents are returned completely
unchanged (likewise when the internal slice allocation panics), and whenever
the returned contents differ from the caller's, the outcome is a success in
which the contents are exactly the rows read by a fully successful data-row
loop — the destination is assigned only after every row has been read
successfully. -/
theorem read_error_leaves_dest_unchanged (r : MReader) (d : DestVal)
    (dest0 : List Nat) (h : Int) :
    (∀ e, (Read r d dest0 h).2 = ReadOut.err e → (Read r d dest0 h).1 = dest0) ∧
    ((Read r d dest0 h).2 = ReadOut.panicked → (Read r d dest0 h).1 = dest0) ∧
    ((Read r d dest0 h).1 ≠ dest0 →
      ∃ hr rows, Read r d dest0 h = (rows, ReadOut.ok hr) ∧
        dataLoop r h.toNat (r.numRows - h).toNat = Except.ok rows) := by
  rcases Read_shape r d dest0 h with ⟨e, he⟩ | ⟨hp, _, _⟩ |
    ⟨hr, rows, hok, _, _, hhead, hdata⟩
  · rw [he]
    exact ⟨fun _ _ => rfl, fun _ => rfl, fun hne => absurd rfl hne⟩
  · rw [hp]
    exact ⟨fun e hc => ReadOut.noConfusion hc, fun _ => rfl, fun hne => absurd rfl hne⟩
  · rw [hok]
    exact ⟨fun e hc => ReadOut.noConfusion hc, fun hc => ReadOut.noConfusion hc,
      fun _ => ⟨hr, rows, rfl, hdata⟩⟩

/-- C4 witness: `read_error_leaves_dest_unchanged` at a concrete reader whose
single data row fails to scan: the outcome is that error and the destination
contents `[9]` are unchanged. -/
theorem read_error_leaves_dest_unchanged_witness :
    (Read ⟨1, fun _ => Except.ok ["x"], fun _ => Except.error "scan failure"⟩
      ⟨some (GoTy.tPtr (GoTy.tSlice GoTy.tStruct)), false⟩ [9] 0).1 = [9] :=
  (read_error_leaves_dest_unchanged
    ⟨1, fun _ => Except.ok ["x"], fun _ => Except.error "scan failure"⟩
    ⟨some (GoTy.tPtr (GoTy.tSlice GoTy.tStruct)), false⟩ [9] 0).1
    "scan failure" (by decide)

/-- C10: for `0 ≤ numHeaderRows ≤ NumRows()`, `Read` never reaches the
negative-length slice allocation (no panic); on success the returned header
rows are exactly rows `0..numHeaderRows-1` in reader order and the
destination receives exactly `NumRows() - numHeaderRows` records; and this
totality does not extend to `numHeaderRows > NumRows()`: there — with a valid
destination and header reads succeeding — the internal slice allocation
receives a negative length and panics instead of an error being returned. -/
theorem read_total_in_range_and_panics_beyond (r : MReader) (d : DestVal)
    (dest0 : List Nat) (h : Int) :
    (0 ≤ h → h ≤ r.numRows → (Read r d dest0 h).2 ≠ ReadOut.panicked) ∧
    (∀ hr, (Read r d dest0 h).2 = ReadOut.ok hr →
      hr.length = h.toNat ∧
      (∀ j, j < h.toNat → r.readRowStrings j = Except.ok (hr.getD j [])) ∧
      (Read r d dest0 h).1.length = (r.numRows - h).toNat) ∧
    (0 ≤ h → r.numRows < h → isStructSlicePtr d = true →
      (∃ hs, headerLoop r (min h r.numRows).toNat = Except.ok hs) →
      (Read r d dest0 h).2 = ReadOut.panicked) := by
  refine ⟨?_, ?_, ?_⟩
  · intro h0 hN
    rcases Read_shape r d dest0 h with ⟨e, he⟩ | ⟨hp, _, hnr⟩ |
      ⟨hr, rows, hok, _, _, _, _⟩
    · rw [he]
      exact fun hc => ReadOut.noConfusion hc
    · exact absurd hnr (by omega)
    · rw [hok]
      exact fun hc => ReadOut.noConfusion hc
  · intro hr hok
    rcases Read_shape r d dest0 h with ⟨e, he⟩ | ⟨hp, _, _⟩ |
      ⟨hr0, rows, heq, hneg, hnr, hhead, hdata⟩
    · rw [he] at hok
      exact absurd hok (fun hc => ReadOut.noConfusion hc)
    · rw [hp] at hok
      exact absurd hok (fun hc => ReadOut.noConfusion hc)
    · have hrr : hr0 = hr := by
        rw [heq] at hok
        injection hok
      subst hrr
      have hmin : min h r.numRows = h := min_eq_left (by omega)
      rw [hmin] at hhead
      obtain ⟨hlen, hidx⟩ := headerLoop_ok r h.toNat hr0 hhead
      have hdlen := dataLoop_ok r h.toNat (r.numRows - h).toNat rows hdata
      rw [heq]
      exact ⟨hlen, hidx, hdlen⟩
  · intro h0 hbig hvalid hex
    obtain ⟨hs, hhl⟩ := hex
    obtain ⟨pr, hval⟩ := readValidate_ok_of_valid d hvalid
    unfold Read
    rw [if_neg (by omega), hval, hhl]
    dsimp only
    rw [if_pos (by omega)]

/-- C10 witness: `read_total_in_range_and_panics_beyond` applied twice to a
concrete one-row reader and valid destination: with `numHeaderRows = 3 > 1`
the outcome is the modelled panic, and with `numHeaderRows = 1` the success
case yields one header row equal to row 0 and an empty destination. -/
theorem read_total_in_range_and_panics_beyond_witness :
    (Read ⟨1, fun _ => Except.ok ["a"], fun _ => Except.ok 0⟩
      ⟨some (GoTy.tPtr (GoTy.tSlice GoTy.tStruct)), false⟩ [] 3).2 =
      ReadOut.panicked ∧
    (Read ⟨1, fun _ => Except.ok ["a"], fun _ => Except.ok 0⟩
      ⟨some (GoTy.tPtr (GoTy.tSlice GoTy.tStruct)), false⟩ [] 1).1.length = 0 := by
  constructor
  · exact (read_total_in_range_and_panics_beyond
      ⟨1, fun _ => Except.ok ["a"], fun _ => Except.ok 0⟩
      ⟨some (GoTy.tPtr (GoTy.tSlice GoTy.tStruct)), false⟩ [] 3).2.2
      (by decide) (by decide) (by decide) ⟨[["a"]], rfl⟩
  · exact ((read_total_in_range_and_panics_beyond
      ⟨1, fun _ => Except.ok ["a"], fun _ => Except.ok 0⟩
      ⟨some (GoTy.tPtr (GoTy.tSlice GoTy.tStruct)), false⟩ [] 1).2.1
      [["a"]] (by decide)).2.2
